import Mathlib

/-!
Shallow embedding of the hypcmp sources (src/core.rs, src/util.rs,
src/main.rs, src/lib.rs) together with theorems about the commit-set
resolution, parameter synthesis, orchestration and result-merge logic.
-/

/-- JSON values, modelling serde_json::Value as used by util.rs. Numbers are
modelled abstractly as integers; none of the merge logic inspects them. -/
inductive Json where
  | null : Json
  | bool : Bool → Json
  | num : Int → Json
  | str : String → Json
  | arr : List Json → Json
  | obj : List (String × Json) → Json

/-- Key lookup in a JSON object, modelling serde_json::Map::get. -/
def lookupKey : List (String × Json) → String → Option Json
  | [], _ => none
  | (k, v) :: rest, key => if k = key then some v else lookupKey rest key

/-- Update the binding of a key, inserting when absent, modelling assignment
through serde_json IndexMut on an object. -/
def updateKvs : List (String × Json) → String → Json → List (String × Json)
  | [], key, v => [(key, v)]
  | (k, w) :: rest, key, v =>
    if k = key then (k, v) :: rest else (k, w) :: updateKvs rest key v

/-- Indexing json[key], modelling serde_json Index for Value: null when self
is not an object or the key is absent. -/
def Json.get : Json → String → Json
  | .obj kvs, key => (lookupKey kvs key).getD .null
  | _, _ => .null

/-- Value::as_array. -/
def Json.asArray : Json → Option (List Json)
  | .arr l => some l
  | _ => none

/-- Value::as_str. -/
def Json.asStr : Json → Option String
  | .str s => some s
  | _ => none

/-- Value::as_object. -/
def Json.asObject : Json → Option (List (String × Json))
  | .obj kvs => some kvs
  | _ => none

/-- Assignment json[key] = v, modelling serde_json IndexMut: an object is
updated, Null turns into a fresh single-binding object, anything else is a
panic (modelled by none). -/
def Json.setKey : Json → String → Json → Option Json
  | .obj kvs, key, v => some (.obj (updateKvs kvs key v))
  | .null, key, v => some (.obj [(key, v)])
  | _, _, _ => none

/-- Sequential fallible map over a list; none models a panic or error inside
the corresponding Rust loop. -/
def mapO {α β : Type} (f : α → Option β) : List α → Option (List β)
  | [] => some []
  | a :: l =>
    match f a with
    | none => none
    | some b =>
      match mapO f l with
      | none => none
      | some bs => some (b :: bs)

/-- The commit value looked up by move_commit_label_to_cmd_name (util.rs):
the commit key of the parameters object of a result entry, when present. -/
def commitParam (run : Json) : Option Json :=
  ((run.get "parameters").asObject).bind (fun kvs => lookupKey kvs "commit")

/-- Per-result rewrite done by move_commit_label_to_cmd_name (util.rs, loop
body): when a commit parameter is present the command field becomes the old
command, an at sign, and the commit value; the unwrap panics on non-string
fields are modelled by none. -/
def moveCommitRun (run : Json) : Option Json :=
  match commitParam run with
  | none => some run
  | some suff =>
    match (run.get "command").asStr, suff.asStr with
    | some oldName, some suffix =>
      run.setKey "command" (.str (oldName ++ "@" ++ suffix))
    | _, _ => none

/-- move_commit_label_to_cmd_name (util.rs): rewrite every entry of the
results array. -/
def moveCommitLabelToCmdName (j : Json) : Option Json :=
  match (j.get "results").asArray with
  | none => none
  | some results =>
    match mapO moveCommitRun results with
    | none => none
    | some newResults => j.setKey "results" (.arr newResults)

/-- The rewritten results array contributed by one input file of
merge_json_files. -/
def rewrittenResults (j : Json) : Option (List Json) :=
  (moveCommitLabelToCmdName j).bind (fun r => (r.get "results").asArray)

/-- merge_json_files (util.rs), over the already-parsed documents: the first
document is rewritten, and its results array accumulates the rewritten
results arrays of the remaining documents in order. -/
def mergeJsonFiles : List Json → Option Json
  | [] => none
  | first :: rest =>
    match moveCommitLabelToCmdName first with
    | none => none
    | some r =>
      match (r.get "results").asArray with
      | none => none
      | some acc =>
        match mapO rewrittenResults rest with
        | none => none
        | some tails => r.setKey "results" (.arr (acc ++ tails.flatten))

/-- generate_jq_cmd (util.rs). -/
def generateJqCmd (key cmd json : String) : String :=
  "jq --arg " ++ key ++ " $(" ++ cmd ++ ") " ++ "'.results[0]." ++ key ++
    "=$" ++ key ++ "' " ++ json

/-- str::ends_with for a single character. -/
def endsWithChar (s : String) (c : Char) : Bool :=
  s.data.getLast? == some c

/-- str::starts_with. -/
def strStarts (s p : String) : Bool :=
  p.data.isPrefixOf s.data

/-- trim_newline (util.rs). -/
def trimNewline (s : String) : String :=
  if endsWithChar s '\n' then
    let t := s.dropRight 1
    if endsWithChar t '\r' then t.dropRight 1 else t
  else s

/-- Captured standard output of the two git rev-parse queries, already decoded
to strings. -/
structure GitState where
  branchRaw : String
  commitRaw : String

/-- get_current_branch (util.rs): its to_string call already trims one
trailing newline. -/
def getCurrentBranch (g : GitState) : String :=
  trimNewline g.branchRaw

/-- get_current_commit (util.rs). -/
def getCurrentCommit (g : GitState) : String :=
  trimNewline g.commitRaw

/-- get_current_branch_or_id (util.rs): the current branch, or the current
commit id when the head is detached. -/
def getCurrentBranchOrId (g : GitState) : String :=
  let br := trimNewline (getCurrentBranch g)
  if br == "HEAD" then trimNewline (getCurrentCommit g) else br

/-- checkout (util.rs): the second component lists the revisions for which a
git checkout subprocess was issued; applyCheckout models the effect of that
subprocess on the git state. The source function returns Ok in every case. -/
def checkout (g : GitState) (commit : String) (applyCheckout : String → GitState) :
    GitState × List String :=
  let id := getCurrentBranchOrId g
  if id != commit then (applyCheckout commit, [commit]) else (g, [])

namespace Core

/-- Run (core.rs). -/
structure Run where
  commits : Option (List String)
  cleanup : Option String
  prepare : Option String
  setup : Option String
  shell : Option String
  command : String

/-- Run::to_hyperfine (core.rs): the synthesized per-run argument sequence. -/
def Run.toHyperfine (r : Run) : List String :=
  let shellPart : List String :=
    match r.shell, r.commits, r.setup with
    | some _, some _, some _ => []
    | some sh, _, _ => ["--shell", sh]
    | _, _, _ => []
  let commitsPart : List String :=
    match r.commits with
    | some ids => ["--parameter-list", "commit", String.intercalate "," ids]
    | none => []
  let cleanupPart : List String :=
    match r.cleanup with
    | some cmd => ["--cleanup", cmd]
    | none => []
  let preparePart : List String :=
    match r.prepare with
    | some cmd => ["--prepare", cmd]
    | none => []
  let setupPart : List String :=
    match r.setup, r.commits with
    | some scmd, some _ => ["--setup", "git checkout {commit} && " ++ scmd]
    | none, some _ => ["--setup", "git checkout {commit}"]
    | some scmd, none => ["--setup", scmd]
    | none, none => []
  shellPart ++ commitsPart ++ cleanupPart ++ preparePart ++ setupPart ++ [r.command]

/-- Hyperfined::to_hyperfine_with_json (core.rs). -/
def toHyperfineWithJson (r : Run) (json : String) : List String :=
  r.toHyperfine ++ ["--export-json", json]

/-- Iterator::position for the string x. -/
def position (x : String) : List String → Option Nat
  | [] => none
  | a :: l => if a == x then some 0 else (position x l).map (· + 1)

/-- Vec::insert; none models the out-of-bounds panic. -/
def insertAt : List String → Nat → String → Option (List String)
  | l, 0, x => some (x :: l)
  | [], _ + 1, _ => none
  | a :: l, n + 1, x => (insertAt l n x).map (a :: ·)

/-- Hyperfined::to_hyperfine_with_json_and_annotations (core.rs); the
annotation map is taken in iteration order, and none models the unwrap and
insert panics. -/
def toHyperfineWithJsonAnnotated (r : Run) (json : String)
    (kw : List (String × String)) : Option (List String) :=
  let params := toHyperfineWithJson r json
  let ann := kw.map (fun p => generateJqCmd p.1 p.2 json)
  match position "--cleanup" params with
  | some ix =>
    match params.get? (ix + 1) with
    | none => none
    | some c => insertAt params (ix + 1) (String.intercalate "&&" (ann ++ [c]))
  | none => some (params ++ ["--cleanup", String.intercalate "&&" ann])

/-- Repository catalogue: the outputs of the git queries of util.rs consumed
by check_correctness_of_commit_ids; rangeIds models
get_commit_ids_since_before for the cases that actually invoke git. -/
structure Catalog where
  branches : List String
  tags : List String
  abbrevIds : List String
  fullIds : List String
  rangeIds : Option String → Option String → Option (List String)

/-- str::strip_prefix. -/
def chopPre (p s : String) : Option String :=
  if strStarts s p then some (s.drop p.length) else none

/-- get_commit_ids_since_before (util.rs): both ends absent yields None
before any git invocation. -/
def rangeLookup (cat : Catalog) : Option String → Option String → Option (List String)
  | none, none => none
  | since, before => cat.rangeIds since before

/-- Commits (core.rs). -/
inductive Commits where
  | valid : Commits
  | noTagsFound : Commits
  | specialCaseAll : List String → Commits
  | someInvalid : List String → Commits

/-- The union of the four identifier namespaces, in the append order of
check_correctness_of_commit_ids. -/
def unionIds (cat : Catalog) : List String :=
  cat.branches ++ cat.tags ++ cat.abbrevIds ++ cat.fullIds

/-- The sentinel-token tests of check_correctness_of_commit_ids. -/
def hasSentinel (vec : List String) : Bool :=
  vec.any (fun s => s == "--all") || vec.any (fun s => s == "--branches") ||
    vec.any (fun s => s == "--tags") ||
    (vec.any (fun s => strStarts s "--since") ||
      vec.any (fun s => strStarts s "--before"))

/-- check_correctness_of_commit_ids (core.rs); none models the panics behind
the unwrap calls (empty tag output indexed at zero, range query with no
bounds). -/
def checkCorrectness (cat : Catalog) (vec : List String) : Option Commits :=
  if vec.any (fun s => s == "--all") then some (.specialCaseAll cat.abbrevIds)
  else if vec.any (fun s => s == "--branches") then some (.specialCaseAll cat.branches)
  else if vec.any (fun s => s == "--tags") then
    match cat.tags with
    | [] => none
    | t :: _ => if t == "" then some .noTagsFound else some (.specialCaseAll cat.tags)
  else if vec.any (fun s => strStarts s "--since") ||
      vec.any (fun s => strStarts s "--before") then
    let since := (vec.find? (fun s => strStarts s "--since")).bind (chopPre "--since=")
    let before := (vec.find? (fun s => strStarts s "--before")).bind (chopPre "--before=")
    (rangeLookup cat since before).map .specialCaseAll
  else
    let notFound := vec.filter (fun c => ! (unionIds cat).any (fun s => s == c))
    if notFound.isEmpty then some .valid else some (.someInvalid notFound)

/-- Resolution failures surfaced by from_commit (core.rs), kept structured
instead of as serde error strings. -/
inductive ResolveErr where
  | someInvalid : List String → ResolveErr
  | noTagsFound : ResolveErr

/-- from_commit (core.rs); none models the panics inside
check_correctness_of_commit_ids. -/
def fromCommit (cat : Catalog) (s : Option (List String)) :
    Option (Except ResolveErr (Option (List String))) :=
  match s with
  | none => some (.ok none)
  | some vec =>
    match checkCorrectness cat vec with
    | none => none
    | some .valid => some (.ok (some vec))
    | some (.specialCaseAll v) => some (.ok (some v))
    | some (.someInvalid v) => some (.error (.someInvalid v))
    | some .noTagsFound => some (.error .noTagsFound)

end Core

namespace MainProg

/-- Run (main.rs); this binary-local variant has no shell field. -/
structure Run where
  commits : Option (List String)
  cleanup : Option String
  prepare : Option String
  setup : Option String
  command : String

/-- Run::to_hyperfine_params (main.rs); note that here setup without commits
is silently ignored. -/
def Run.toHyperfineParams (r : Run) : List String :=
  let commitsPart : List String :=
    match r.commits with
    | some ids => ["--parameter-list", "commit", String.intercalate "," ids]
    | none => []
  let cleanupPart : List String :=
    match r.cleanup with
    | some cmd => ["--cleanup", cmd]
    | none => []
  let preparePart : List String :=
    match r.prepare with
    | some cmd => ["--prepare", cmd]
    | none => []
  let setupPart : List String :=
    match r.setup, r.commits with
    | some scmd, some _ => ["--setup", "git checkout {commit} && " ++ scmd]
    | none, some _ => ["--setup", "git checkout {commit}"]
    | _, _ => []
  commitsPart ++ cleanupPart ++ preparePart ++ setupPart ++ [r.command]

/-- The per-run export file path built in main: dir joined with the label
plus a json extension. -/
def outPath (dir label : String) : String :=
  dir ++ "/" ++ (label ++ ".json")

/-- The argument sequence handed to hyperfine for one run (main.rs loop
body): shared parameters, then the export-json pair, then the run
parameters. -/
def runArgs (shared : List String) (dir label : String) (r : Run) : List String :=
  shared ++ ["--export-json", outPath dir label] ++ r.toHyperfineParams

/-- Behaviour of the external processes and the file system during main.
exitSuccess records each hyperfine invocation's exit status; spawnOk false
means Command::output itself errs, which the expect call turns into a
panic. -/
structure Env where
  spawnOk : String → Bool
  exitSuccess : String → Bool
  mergeOk : List String → Bool
  writeOk : Bool
  cleanupOk : Bool

/-- Observable steps of main. -/
inductive Event where
  | invoked : List String → Event
  | merged : Event
  | wrote : Event
  | restored : String → Event
deriving DecidableEq

/-- How main terminates. -/
inductive Outcome where
  | ok : Outcome
  | panicked : Outcome
  | error : Outcome
deriving DecidableEq

/-- Trace and result of one execution of main. -/
structure ExecResult where
  events : List Event
  files : List String
  outcome : Outcome

/-- The run loop of main (main.rs): every output path is pushed into the
merge list regardless of the exit status; only a spawn error stops the loop
through the panic of expect. -/
def runLoop (env : Env) (shared : List String) (dir : String) :
    List (String × Run) → List Event × List String × Bool
  | [] => ([], [], true)
  | (label, r) :: rest =>
    let args := runArgs shared dir label r
    if env.spawnOk label then
      let next := runLoop env shared dir rest
      (.invoked args :: next.1, outPath dir label :: next.2.1, next.2.2)
    else
      ([.invoked args], [], false)

/-- main (main.rs) after the preflight checks: run loop, merge, write,
cleanup, then the final checkout of the recorded branch; every fallible step
returns early without the later steps. -/
def mainExec (env : Env) (shared : List String) (dir currentBranch : String)
    (runs : List (String × Run)) : ExecResult :=
  match runLoop env shared dir runs with
  | (evs, files, false) => ⟨evs, files, .panicked⟩
  | (evs, files, true) =>
    if env.mergeOk files then
      if env.writeOk then
        if env.cleanupOk then
          ⟨evs ++ [.merged, .wrote, .restored currentBranch], files, .ok⟩
        else ⟨evs ++ [.merged, .wrote], files, .error⟩
      else ⟨evs ++ [.merged], files, .error⟩
    else ⟨evs, files, .error⟩

/-- Whether a restoring checkout call occurs in a trace. -/
def hasRestore (evs : List Event) : Bool :=
  evs.any fun e =>
    match e with
    | .restored _ => true
    | _ => false

end MainProg

/-- Sample result entry with a commit parameter. -/
def sampleRes1 : Json :=
  .obj [("command", .str "foo"), ("parameters", .obj [("commit", .str "abc")]),
    ("times", .arr [.num 1])]

/-- Second sample result entry with a different commit parameter. -/
def sampleRes2 : Json :=
  .obj [("command", .str "foo"), ("parameters", .obj [("commit", .str "def")]),
    ("times", .arr [.num 2])]

/-- sampleRes1 after the commit-label rewrite. -/
def sampleRes1R : Json :=
  .obj [("command", .str "foo@abc"), ("parameters", .obj [("commit", .str "abc")]),
    ("times", .arr [.num 1])]

/-- sampleRes2 after the commit-label rewrite. -/
def sampleRes2R : Json :=
  .obj [("command", .str "foo@def"), ("parameters", .obj [("commit", .str "def")]),
    ("times", .arr [.num 2])]

/-- Sample per-run result document. -/
def sampleDoc1 : Json := .obj [("results", .arr [sampleRes1])]

/-- Second sample per-run result document. -/
def sampleDoc2 : Json := .obj [("results", .arr [sampleRes2])]

/-- Sample result entry with no commit parameter. -/
def sampleNoCommit : Json := .obj [("command", .str "bar"), ("times", .arr [])]

/-- Run with an existing cleanup value used for the annotation claims. -/
def annotRun : Core.Run := ⟨none, some "C", none, none, none, "cmd"⟩

/-- Run with commits and cleanup used for the parameter-order claims. -/
def commitRun : Core.Run := ⟨some ["a", "b"], some "rm -f x", none, none, none, "cmd"⟩

/-- Run with shell, commits and setup all set. -/
def shellAllRun : Core.Run := ⟨some ["a"], none, none, some "make", some "bash", "cmd"⟩

/-- Run with shell and setup but no commits. -/
def shellTwoRun : Core.Run := ⟨none, none, none, some "make", some "bash", "cmd"⟩

/-- Minimal run for the orchestration claims. -/
def mainRun0 : MainProg.Run := ⟨none, none, none, none, "cmd"⟩

/-- Environment in which every external step succeeds. -/
def envAllOk : MainProg.Env := ⟨fun _ => true, fun _ => true, fun _ => true, true, true⟩

/-- Environment in which hyperfine runs but exits with a failure status. -/
def envExitFail : MainProg.Env := ⟨fun _ => true, fun _ => false, fun _ => true, true, true⟩

/-- Environment in which the merge step fails. -/
def envMergeFail : MainProg.Env := ⟨fun _ => true, fun _ => true, fun _ => false, true, true⟩

/-- Git state checked out at the branch main. -/
def gitMain : GitState := ⟨"main\n", "abc123\n"⟩

/-- Small concrete repository catalogue. -/
def catW : Core.Catalog := ⟨["main"], ["v1"], ["abc1234"], ["abc1234def"], fun _ _ => none⟩

/-- Looking up a key right after updating it yields the new value. -/
theorem lookupKey_updateKvs (kvs : List (String × Json)) (k : String) (v : Json) :
    lookupKey (updateKvs kvs k v) k = some v := by
  induction kvs with
  | nil => simp [updateKvs, lookupKey]
  | cons kv rest ih =>
    obtain ⟨k1, v1⟩ := kv
    by_cases h : k1 = k
    · subst h
      simp [updateKvs, lookupKey]
    · simp [updateKvs, lookupKey, h, ih]

/-- The run loop of main never performs a restoring checkout. -/
theorem runLoop_no_restore (env : MainProg.Env) (shared : List String) (dir : String)
    (runs : List (String × MainProg.Run)) :
    MainProg.hasRestore (MainProg.runLoop env shared dir runs).1 = false := by
  induction runs with
  | nil => rfl
  | cons hd rest ih =>
    obtain ⟨label, r⟩ := hd
    by_cases h : env.spawnOk label
    · simp only [MainProg.runLoop, h, if_true]
      simpa [MainProg.hasRestore] using ih
    · simp [MainProg.runLoop, h, MainProg.hasRestore]

/-- C10: checkout is idempotent at the VCS interface: when the currently
checked-out branch or detached commit id already equals the requested
revision, no git checkout subprocess is issued and the git state is returned
unchanged (the source function returns Ok in every case). -/
theorem c10_checkout_idempotent (g : GitState) (commit : String)
    (app : String → GitState) (h : getCurrentBranchOrId g = commit) :
    checkout g commit app = (g, []) := by
  simp [checkout, h]

/-- Witness for c10_checkout_idempotent at a concrete git state. -/
theorem c10_witness :
    checkout gitMain "main" (fun _ => ⟨"other", "zzz"⟩) = (gitMain, []) :=
  c10_checkout_idempotent gitMain "main" _ (by decide)

/-- C8 counterexample: for the run of the claim the synthesized sequence has
the setup value "git checkout {commit}", so the list the claim names (with
"checkout {commit}") is not a suffix of it. -/
theorem c8_counterexample :
    Core.Run.toHyperfine commitRun =
      ["--parameter-list", "commit", "a,b", "--cleanup", "rm -f x",
        "--setup", "git checkout {commit}", "cmd"]
    ∧ ¬ (["--parameter-list", "commit", "a,b", "--cleanup", "rm -f x",
        "--setup", "checkout {commit}", "cmd"] <:+ Core.Run.toHyperfine commitRun) := by
  refine ⟨by decide, ?_⟩
  intro h
  obtain ⟨t, ht⟩ := h
  have hl := congrArg List.length ht
  simp [List.length_append, Core.Run.toHyperfine, commitRun] at hl
  subst hl
  simp at ht
  exact absurd ht (by decide)

/-- C8 (amended): for a Run with commits a and b, no setup, and cleanup
"rm -f x", the synthesized per-run sequence is exactly the parameter list,
the cleanup pair, the setup pair with value "git checkout {commit}", and the
command string last. -/
theorem c8_param_order (cmd : String) :
    Core.Run.toHyperfine ⟨some ["a", "b"], some "rm -f x", none, none, none, cmd⟩ =
      ["--parameter-list", "commit", "a,b", "--cleanup", "rm -f x",
        "--setup", "git checkout {commit}", cmd] := rfl

/-- C2 (code behaviour at the failing input): with an existing cleanup value
C and one annotation, the combined jq-and-C value is inserted right after the
--cleanup flag, but the old value C survives as the next standalone
argument. -/
theorem c2_annotation_insert_keeps_old_value :
    Core.toHyperfineWithJsonAnnotated annotRun "out.json" [("size", "wc -c f")] =
      some ["--cleanup",
        "jq --arg size $(wc -c f) '.results[0].size=$size' out.json&&C",
        "C", "cmd", "--export-json", "out.json"]
    ∧ ((Core.toHyperfineWithJsonAnnotated annotRun "out.json"
        [("size", "wc -c f")]).getD []).get? 2 = some "C" := by
  exact ⟨by decide, by decide⟩

/-- C3 (code behaviour at the failing input): a run whose hyperfine
invocation exits with a failure status still has its result file handed to
the merger, and the whole operation ends with outcome ok; no
NoSuccessfulRuns condition exists. -/
theorem c3_failed_run_still_merged :
    (MainProg.mainExec envExitFail ["hf"] "/tmp" "main" [("r", mainRun0)]).files =
      ["/tmp/r.json"]
    ∧ (MainProg.mainExec envExitFail ["hf"] "/tmp" "main" [("r", mainRun0)]).outcome =
      MainProg.Outcome.ok := by
  exact ⟨rfl, rfl⟩

/-- C4 counterexample: when the merge step fails after the runs, main
terminates on an error path on which no restoring checkout happens. -/
theorem c4_counterexample :
    (MainProg.mainExec envMergeFail ["hf"] "/tmp" "main" [("r", mainRun0)]).outcome =
      MainProg.Outcome.error
    ∧ MainProg.hasRestore
        (MainProg.mainExec envMergeFail ["hf"] "/tmp" "main" [("r", mainRun0)]).events =
      false := by
  exact ⟨rfl, rfl⟩

/-- C4 (amended): the recorded starting revision is restored exactly on the
fully successful path: when main ends with outcome ok the final event is the
restoring checkout of that revision, and on every non-ok outcome no
restoring checkout occurs at all. -/
theorem c4_restore_only_on_success (env : MainProg.Env) (shared : List String)
    (dir cb : String) (runs : List (String × MainProg.Run)) :
    ((MainProg.mainExec env shared dir cb runs).outcome = MainProg.Outcome.ok →
      ∃ pre, (MainProg.mainExec env shared dir cb runs).events =
        pre ++ [MainProg.Event.restored cb])
    ∧ ((MainProg.mainExec env shared dir cb runs).outcome ≠ MainProg.Outcome.ok →
      MainProg.hasRestore (MainProg.mainExec env shared dir cb runs).events = false) := by
  have hnr := runLoop_no_restore env shared dir runs
  unfold MainProg.mainExec
  rcases hl : MainProg.runLoop env shared dir runs with ⟨evs, files, ok⟩
  rw [hl] at hnr
  cases ok with
  | false =>
    refine ⟨fun h => absurd h (by simp), fun _ => hnr⟩
  | true =>
    by_cases hm : env.mergeOk files
    · by_cases hw : env.writeOk
      · by_cases hc : env.cleanupOk
        · simp only [hm, hw, hc, if_true]
          refine ⟨fun _ => ⟨evs ++ [MainProg.Event.merged, MainProg.Event.wrote], ?_⟩,
            fun h => absurd rfl h⟩
          simp
        · simp only [hm, hw, hc, if_true, if_false]
          refine ⟨fun h => absurd h (by simp), fun _ => ?_⟩
          simp only [MainProg.hasRestore, List.any_append] at hnr ⊢
          simp [hnr]
      · simp only [hm, hw, if_true, if_false]
        refine ⟨fun h => absurd h (by simp), fun _ => ?_⟩
        simp only [MainProg.hasRestore, List.any_append] at hnr ⊢
        simp [hnr]
    · simp only [hm, if_false]
      exact ⟨fun h => absurd h (by simp), fun _ => hnr⟩

/-- Witness for c4_restore_only_on_success: on a fully successful execution
the trace ends with the restoring checkout, and on the failed-merge
execution no restoring checkout occurs. -/
theorem c4_witness :
    (∃ pre, (MainProg.mainExec envAllOk ["hf"] "/tmp" "main" [("r", mainRun0)]).events =
      pre ++ [MainProg.Event.restored "main"])
    ∧ MainProg.hasRestore
        (MainProg.mainExec envMergeFail ["hf"] "/tmp" "main" [("r", mainRun0)]).events =
      false :=
  ⟨(c4_restore_only_on_success envAllOk ["hf"] "/tmp" "main" [("r", mainRun0)]).1 rfl,
    (c4_restore_only_on_success envMergeFail ["hf"] "/tmp" "main" [("r", mainRun0)]).2
      (by decide)⟩

/-- C5 counterexample: the argument sequence built for a concrete run
carries no command-name tag and so differs from the sequence the claim
names. -/
theorem c5_counterexample :
    MainProg.runArgs ["-w"] "/tmp" "lbl" mainRun0 ≠
      ["-w"] ++ ["--command-name", "lbl"] ++ ["--export-json", "/tmp/lbl.json"] ++
        mainRun0.toHyperfineParams
    ∧ "--command-name" ∉ MainProg.runArgs ["-w"] "/tmp" "lbl" mainRun0 := by
  exact ⟨by decide, by decide⟩

/-- C5 (amended): the full argument sequence for a run labelled L is the
shared benchmark parameters, then --export-json with the run-specific file
path, then the run's own synthesized sequence; no command-name tag is
emitted by the orchestrator. -/
theorem c5_arg_sequence (shared : List String) (dir label : String) (r : MainProg.Run)
    (h1 : "--command-name" ∉ shared)
    (h2 : "--command-name" ∉ r.toHyperfineParams)
    (h3 : MainProg.outPath dir label ≠ "--command-name") :
    MainProg.runArgs shared dir label r =
      shared ++ ["--export-json", MainProg.outPath dir label] ++ r.toHyperfineParams
    ∧ "--command-name" ∉ MainProg.runArgs shared dir label r := by
  refine ⟨rfl, ?_⟩
  intro hmem
  rcases List.mem_append.mp hmem with h | h
  · rcases List.mem_append.mp h with h | h
    · exact h1 h
    · simp only [List.mem_cons] at h
      rcases h with h | h | h
      · exact absurd h (by decide)
      · exact h3 h.symm
      · exact absurd h (List.not_mem_nil _)
  · exact h2 h

/-- Witness for c5_arg_sequence at a concrete run. -/
theorem c5_witness :
    MainProg.runArgs ["-w"] "/tmp" "lbl" mainRun0 =
      ["-w"] ++ ["--export-json", MainProg.outPath "/tmp" "lbl"] ++
        mainRun0.toHyperfineParams
    ∧ "--command-name" ∉ MainProg.runArgs ["-w"] "/tmp" "lbl" mainRun0 :=
  c5_arg_sequence ["-w"] "/tmp" "lbl" mainRun0 (by decide) (by decide) (by decide)

/-- The composed setup value can never be the shell flag. -/
theorem shell_ne_git_setup (st : String) :
    "--shell" ≠ "git checkout {commit} && " ++ st := by
  intro h
  have hlen := congrArg String.length h
  rw [String.length_append] at hlen
  have h1 : ("--shell" : String).length = 7 := by decide
  have h2 : ("git checkout {commit} && " : String).length = 25 := by decide
  rw [h1, h2] at hlen
  omega

/-- C9: a Run with shell, commits and setup all set synthesizes a sequence
with no shell entry at all (the shell option is dropped, the Run is not
rejected), while a Run with shell set and not all three set synthesizes a
sequence beginning with the shell flag and the shell value. -/
theorem c9_shell_rules :
    (∀ (cl pr : Option String) (sh st : String) (cs : List String) (cmd : String),
      String.intercalate "," cs ≠ "--shell" → cl ≠ some "--shell" →
      pr ≠ some "--shell" → cmd ≠ "--shell" →
      "--shell" ∉ Core.Run.toHyperfine ⟨some cs, cl, pr, some st, some sh, cmd⟩)
    ∧ (∀ (r : Core.Run) (sh : String),
      r.shell = some sh → (r.commits = none ∨ r.setup = none) →
      (Core.Run.toHyperfine r).take 2 = ["--shell", sh]) := by
  constructor
  · intro cl pr sh st cs cmd hjoin hcl hpr hcmd hmem
    have hc : ∀ c : String, cl = some c → "--shell" ≠ c := by
      intro c h he
      exact hcl (by rw [h, ← he])
    have hp : ∀ p : String, pr = some p → "--shell" ≠ p := by
      intro p h he
      exact hpr (by rw [h, ← he])
    cases cl with
    | none =>
      cases pr with
      | none =>
        simp only [Core.Run.toHyperfine, List.append_nil, List.nil_append,
          List.mem_append, List.mem_cons, List.not_mem_nil, or_false] at hmem
        rcases hmem with ((h | h | h) | h | h) | h
        · exact absurd h (by decide)
        · exact absurd h (by decide)
        · exact hjoin h.symm
        · exact absurd h (by decide)
        · exact shell_ne_git_setup st h
        · exact hcmd h.symm
      | some p =>
        simp only [Core.Run.toHyperfine, List.append_nil, List.nil_append,
          List.mem_append, List.mem_cons, List.not_mem_nil, or_false] at hmem
        rcases hmem with (((h | h | h) | h | h) | h | h) | h
        · exact absurd h (by decide)
        · exact absurd h (by decide)
        · exact hjoin h.symm
        · exact absurd h (by decide)
        · exact hp p rfl h
        · exact absurd h (by decide)
        · exact shell_ne_git_setup st h
        · exact hcmd h.symm
    | some c =>
      cases pr with
      | none =>
        simp only [Core.Run.toHyperfine, List.append_nil, List.nil_append,
          List.mem_append, List.mem_cons, List.not_mem_nil, or_false] at hmem
        rcases hmem with (((h | h | h) | h | h) | h | h) | h
        · exact absurd h (by decide)
        · exact absurd h (by decide)
        · exact hjoin h.symm
        · exact absurd h (by decide)
        · exact hc c rfl h
        · exact absurd h (by decide)
        · exact shell_ne_git_setup st h
        · exact hcmd h.symm
      | some p =>
        simp only [Core.Run.toHyperfine, List.append_nil, List.nil_append,
          List.mem_append, List.mem_cons, List.not_mem_nil, or_false] at hmem
        rcases hmem with ((((h | h | h) | h | h) | h | h) | h | h) | h
        · exact absurd h (by decide)
        · exact absurd h (by decide)
        · exact hjoin h.symm
        · exact absurd h (by decide)
        · exact hc c rfl h
        · exact absurd h (by decide)
        · exact hp p rfl h
        · exact absurd h (by decide)
        · exact shell_ne_git_setup st h
        · exact hcmd h.symm
  · intro r sh hsh hd
    obtain ⟨c0, cl0, p0, s0, sh0, cmd0⟩ := r
    dsimp only at hsh hd
    subst hsh
    rcases hd with h | h
    · subst h
      cases s0 <;> cases cl0 <;> cases p0 <;> rfl
    · subst h
      cases c0 <;> cases cl0 <;> cases p0 <;> rfl

/-- Witness for c9_shell_rules at concrete runs. -/
theorem c9_witness :
    "--shell" ∉ Core.Run.toHyperfine shellAllRun
    ∧ (Core.Run.toHyperfine shellTwoRun).take 2 = ["--shell", "bash"] :=
  ⟨c9_shell_rules.1 none none "bash" "make" ["a"] "cmd" (by decide) (by decide)
      (by decide) (by decide),
    c9_shell_rules.2 shellTwoRun "bash" rfl (Or.inl rfl)⟩

/-- C6: an explicit commit list with no sentinel token, every token of which
is a known branch, tag, abbreviated id or full commit id, resolves
successfully to exactly the input list, unchanged and in order. -/
theorem c6_explicit_valid_unchanged (cat : Core.Catalog) (vec : List String)
    (hs : Core.hasSentinel vec = false)
    (hv : ∀ t ∈ vec, t ∈ Core.unionIds cat) :
    Core.fromCommit cat (some vec) = some (.ok (some vec)) := by
  simp only [Core.hasSentinel, Bool.or_eq_false_iff] at hs
  obtain ⟨⟨⟨h1, h2⟩, h3⟩, h4, h5⟩ := hs
  have hf : vec.filter (fun c => ! (Core.unionIds cat).any (fun s => s == c)) = [] := by
    rw [List.filter_eq_nil_iff]
    intro a ha
    simp only [Bool.not_eq_true', Bool.not_eq_false, List.any_eq_true, beq_iff_eq]
    exact ⟨a, hv a ha, rfl⟩
  simp [Core.fromCommit, Core.checkCorrectness, h1, h2, h3, h4, h5, hf]

/-- Witness for c6_explicit_valid_unchanged on a concrete catalogue. -/
theorem c6_witness :
    Core.fromCommit catW (some ["main", "v1"]) = some (.ok (some ["main", "v1"])) :=
  c6_explicit_valid_unchanged catW ["main", "v1"] (by decide) (by decide)

/-- C7: an explicit commit list with no sentinel token and at least one
unknown token fails with someInvalid, and the reported list contains exactly
the unknown input tokens: every unknown one and no known one. -/
theorem c7_invalid_exact_report (cat : Core.Catalog) (vec : List String)
    (hs : Core.hasSentinel vec = false)
    (hx : ∃ t, t ∈ vec ∧ t ∉ Core.unionIds cat) :
    Core.fromCommit cat (some vec) =
      some (.error (.someInvalid
        (vec.filter (fun c => ! (Core.unionIds cat).any (fun s => s == c)))))
    ∧ ∀ t, t ∈ vec.filter (fun c => ! (Core.unionIds cat).any (fun s => s == c)) ↔
        t ∈ vec ∧ t ∉ Core.unionIds cat := by
  simp only [Core.hasSentinel, Bool.or_eq_false_iff] at hs
  obtain ⟨⟨⟨h1, h2⟩, h3⟩, h4, h5⟩ := hs
  have hmem : ∀ t, t ∈ vec.filter (fun c => ! (Core.unionIds cat).any (fun s => s == c)) ↔
      t ∈ vec ∧ t ∉ Core.unionIds cat := by
    intro t
    simp only [List.mem_filter, Bool.not_eq_true', List.any_eq_false, beq_iff_eq]
    constructor
    · rintro ⟨ht, h⟩
      exact ⟨ht, fun hu => h t hu rfl⟩
    · rintro ⟨ht, h⟩
      exact ⟨ht, fun x hx he => h (he ▸ hx)⟩
  have hne : vec.filter (fun c => ! (Core.unionIds cat).any (fun s => s == c)) ≠ [] := by
    obtain ⟨t, ht, hnt⟩ := hx
    intro h0
    have := (hmem t).mpr ⟨ht, hnt⟩
    rw [h0] at this
    exact List.not_mem_nil t this
  have hni : (vec.filter (fun c => ! (Core.unionIds cat).any (fun s => s == c))).isEmpty
      = false := by
    rw [List.isEmpty_eq_false]
    exact hne
  refine ⟨?_, hmem⟩
  simp [Core.fromCommit, Core.checkCorrectness, h1, h2, h3, h4, h5, hni]

/-- Witness for c7_invalid_exact_report on a concrete catalogue with one
unknown token. -/
theorem c7_witness :
    Core.fromCommit catW (some ["main", "zzz"]) =
      some (.error (.someInvalid ["zzz"])) := by
  have h := (c7_invalid_exact_report catW ["main", "zzz"] (by decide)
    ⟨"zzz", by decide, by decide⟩).1
  have e : (["main", "zzz"].filter
      (fun c => ! (Core.unionIds catW).any (fun s => s == c))) = ["zzz"] := by decide
  rw [e] at h
  exact h

/-- C1: for a non-empty list of parsed per-run result documents whose entries
all rewrite successfully, the merged document's results array is the
in-order concatenation of every input document's rewritten results entries;
moreover a result without a commit parameter is left unchanged by the
rewrite, and a result with a string commit parameter and string command has
its command field rewritten to command, at sign, commit. -/
theorem c1_merge_concat_and_rewrite :
    (∀ (d : Json) (rest : List Json) (rss : List (List Json)),
      mapO rewrittenResults (d :: rest) = some rss →
      ∃ m, mergeJsonFiles (d :: rest) = some m ∧
        (m.get "results").asArray = some rss.flatten)
    ∧ (∀ run : Json, commitParam run = none → moveCommitRun run = some run)
    ∧ (∀ (run : Json) (c cmd : String),
      commitParam run = some (.str c) → run.get "command" = .str cmd →
      moveCommitRun run = run.setKey "command" (.str (cmd ++ "@" ++ c))) := by
  refine ⟨?_, ?_, ?_⟩
  · intro d rest rss h
    cases hd : rewrittenResults d with
    | none => simp [mapO, hd] at h
    | some b =>
      cases ht : mapO rewrittenResults rest with
      | none => simp [mapO, hd, ht] at h
      | some bs =>
        simp only [mapO, hd, ht] at h
        have hrss : b :: bs = rss := by injection h
        subst hrss
        cases hm : moveCommitLabelToCmdName d with
        | none => rw [rewrittenResults, hm] at hd; simp at hd
        | some r =>
          rw [rewrittenResults, hm] at hd
          simp only [Option.some_bind] at hd
          obtain ⟨kvs, rfl⟩ : ∃ kvs, r = Json.obj kvs := by
            cases r with
            | null => simp [Json.get, Json.asArray] at hd
            | bool x => simp [Json.get, Json.asArray] at hd
            | num x => simp [Json.get, Json.asArray] at hd
            | str x => simp [Json.get, Json.asArray] at hd
            | arr x => exact absurd hd (by simp [Json.get, Json.asArray])
            | obj kvs => exact ⟨kvs, rfl⟩
          refine ⟨Json.obj (updateKvs kvs "results" (.arr (b ++ bs.flatten))), ?_, ?_⟩
          · simp only [mergeJsonFiles, hm, hd, ht, Json.setKey]
          · simp only [Json.get, lookupKey_updateKvs, Option.getD_some, Json.asArray,
              List.flatten_cons]
  · intro run h
    simp [moveCommitRun, h]
  · intro run c cmd h1 h2
    simp [moveCommitRun, h1, h2, Json.asStr]

/-- Witness for c1_merge_concat_and_rewrite: merging two concrete one-result
documents with commits abc and def, plus the two rewrite cases at concrete
result entries. -/
theorem c1_witness :
    (∃ m, mergeJsonFiles [sampleDoc1, sampleDoc2] = some m ∧
      (m.get "results").asArray = some [sampleRes1R, sampleRes2R])
    ∧ moveCommitRun sampleNoCommit = some sampleNoCommit
    ∧ moveCommitRun sampleRes1 = Json.setKey sampleRes1 "command" (.str "foo@abc") :=
  ⟨c1_merge_concat_and_rewrite.1 sampleDoc1 [sampleDoc2] [[sampleRes1R], [sampleRes2R]] rfl,
    c1_merge_concat_and_rewrite.2.1 sampleNoCommit rfl,
    c1_merge_concat_and_rewrite.2.2 sampleRes1 "abc" "foo" rfl rfl⟩
